import Mathlib

/-!
Shallow embedding of the `logger` package (category and component-orientated
logger): component composers, the process-wide registry, the serializing
dispatcher's write step, and the administrative controls.  Pure data is kept
as it appears in the source; the global mutable variables of the package are
gathered into a single `LogState` record, and the background dispatcher is
modelled by an explicit step (`performWrite`) on that record.  Go panics
(negative `strings.Repeat` count, writing through a nil `io.Writer`) are
modelled by `Option`, with `none` for a panic.
-/

namespace logger

/-- Identity of an output sink (an `io.Writer` value); sinks are opaque here,
a write is recorded as a pair of the sink and the bytes written. -/
abbrev Sink := Nat

/-- The fields of a wall-clock instant that the package's timestamp layouts
use.  `time.Now()` is modelled by passing a `DateTime` to each log call. -/
structure DateTime where
  month : Nat
  day : Nat
  hour : Nat
  minute : Nat
  second : Nat

/-- `FormatterFunc` is used to pass a string manipulating function to a
Logger's Category, Timestamp or Message. -/
abbrev FormatterFunc := String → String

/-- Example formatter wrapping the target string in brackets. -/
def BracketWrapper : FormatterFunc := fun s => "(" ++ s ++ ")"

/-- Example formatter wrapping the target string in square brackets. -/
def SquareBracketWrapper : FormatterFunc := fun s => "[" ++ s ++ "]"

/-- The Logger component written to output first. -/
structure Category where
  Formatter : Option FormatterFunc
  Name : String

/-- `Category.Compose`: the category text is `Formatter(Name)` when a name and
a formatter are both present, and `Name` verbatim otherwise. -/
def Category.Compose (c : Category) : String :=
  if c.Name = "" then c.Name
  else
    match c.Formatter with
    | none => c.Name
    | some f => f c.Name

/-- Two-digit zero-padded decimal, as Go renders the components of the
reference layout tokens used by this package. -/
def pad2 (n : Nat) : String :=
  if n < 10 then "0" ++ toString n else toString n

/-- Models Go `time.Format` restricted to the reference-layout tokens that
occur in this package's layouts: `01` month, `02` day, `15` hour, `04`
minute, `05` second; any other character is copied verbatim. -/
def goFormatChars : List Char → DateTime → List Char
  | '0' :: '1' :: rest, t => (pad2 t.month).data ++ goFormatChars rest t
  | '0' :: '2' :: rest, t => (pad2 t.day).data ++ goFormatChars rest t
  | '1' :: '5' :: rest, t => (pad2 t.hour).data ++ goFormatChars rest t
  | '0' :: '4' :: rest, t => (pad2 t.minute).data ++ goFormatChars rest t
  | '0' :: '5' :: rest, t => (pad2 t.second).data ++ goFormatChars rest t
  | c :: rest, t => c :: goFormatChars rest t
  | [], _ => []

/-- String-level wrapper of `goFormatChars`. -/
def goTimeFormat (layout : String) (t : DateTime) : String :=
  String.mk (goFormatChars layout.data t)

/-- The Logger component written between the Category and the Message. -/
structure Timestamp where
  Format : String
  Formatter : Option FormatterFunc

/-- `Timestamp.Compose`: empty format gives empty text; otherwise the current
time is rendered through the layout and then through the formatter, if any. -/
def Timestamp.Compose (t : Timestamp) (now : DateTime) : String :=
  if t.Format = "" then t.Format
  else
    let datetime := goTimeFormat t.Format now
    match t.Formatter with
    | none => datetime
    | some f => f datetime

/-- The Logger component written last. -/
structure Message where
  Formatter : Option FormatterFunc

/-- `Message.Compose`: the raw message, through the formatter when set. -/
def Message.Compose (m : Message) (message : String) : String :=
  match m.Formatter with
  | none => message
  | some f => f message

/-- A named, independently enable/disable-able logging unit. -/
structure Logger where
  Category : Category
  Timestamp : Timestamp
  Message : Message
  Writer : Option Sink
  Enabled : Bool
  id : Int
  splunkEnabled : Bool
  counterEnabled : Bool
  counterName : String
  count : Nat

/-- `Count` returns the number of messages logged by the Logger. -/
def Logger.Count (l : Logger) : Nat := l.count

/-- A composed write request handed to the dispatcher. -/
structure queueItem where
  writer : Option Sink
  category : Category
  message : String

/-- `strings.Repeat " " count` with a machine-int count: Go panics when the
count is negative, modelled as `none`. -/
def repeatSpace (count : Int) : Option String :=
  if count < 0 then none else some (String.mk (List.replicate count.toNat ' '))

/-- A run of `n` spaces. -/
def spaces (n : Nat) : String := String.mk (List.replicate n ' ')

/-- The package-level mutable state: the registry of loggers (keyed by a
pointer token), the formatting toggles, the dispatcher's grouping history,
the pending queue contents, and the writes performed so far. -/
structure LogState where
  loggers : List (Nat × Logger)
  categoryPadding : Bool
  categoryGrouping : Bool
  bufferEnabled : Bool
  highestLoggerID : Int
  maxCategorySize : Nat
  previousCategory : String
  queue : List queueItem
  output : List (Sink × String)

/-- The package variables before `init` runs: no loggers, padding and
grouping enabled, unbuffered, `highestLoggerID = -1`. -/
def emptyState : LogState :=
  { loggers := []
    categoryPadding := true
    categoryGrouping := true
    bufferEnabled := false
    highestLoggerID := -1
    maxCategorySize := 0
    previousCategory := ""
    queue := []
    output := [] }

/-- The dispatcher's write step for one received entry: compute the padding
(`strings.Repeat` panics on a negative count), blank the category text when
grouping applies, write `category ++ padding ++ message` through
`fmt.Fprintln` (which appends a newline, and panics on a nil writer), then
record the written category name for grouping. -/
def performWrite (s : LogState) (item : queueItem) : Option LogState :=
  let currentCategory := item.category.Compose
  let paddingOpt : Option String :=
    if s.categoryPadding then
      repeatSpace ((s.maxCategorySize : Int) - (currentCategory.length : Int) + 1)
    else some ""
  match paddingOpt with
  | none => none
  | some padding0 =>
      let padding :=
        if item.category.Name ≠ "" ∧ s.categoryPadding = false then padding0 ++ " "
        else padding0
      let groupedCategory :=
        if s.categoryGrouping = true ∧ s.previousCategory = item.category.Name then
          spaces currentCategory.length
        else currentCategory
      let line := groupedCategory ++ padding ++ item.message
      match item.writer with
      | none => none
      | some w =>
          some { s with
                   output := s.output ++ [(w, line ++ "\n")]
                   previousCategory := item.category.Name }

/-- The maximum composed-category text length over the registered loggers
(the loop body of `SetCategoryPadding`). -/
def maxComposedLen : List (Nat × Logger) → Nat
  | [] => 0
  | p :: rest => max (maxComposedLen rest) (p.2.Category.Compose).length

/-- `SetCategoryPadding`: toggle padding; the width is reset to 0 and, when
enabling, recomputed as the maximum composed category length. -/
def SetCategoryPadding (s : LogState) (enabled : Bool) : LogState :=
  { s with
      categoryPadding := enabled
      maxCategorySize := if enabled then maxComposedLen s.loggers else 0 }

/-- The Logger record `NewLogger` constructs: square-bracket category
formatter, default timestamp layout `01/02 15:04:05`, no message formatter. -/
def mkNewLogger (handle : Option Sink) (category : String) (enabled : Bool)
    (newID : Int) : Logger :=
  { Writer := handle
    Enabled := enabled
    id := newID
    Category := { Name := category, Formatter := some SquareBracketWrapper }
    Timestamp := { Format := "01/02 15:04:05", Formatter := none }
    Message := { Formatter := none }
    splunkEnabled := false
    counterEnabled := false
    counterName := ""
    count := 0 }

/-- `NewLogger`: bump `highestLoggerID`, build the logger, register it under
a fresh pointer token, and reset the padding width. -/
def NewLogger (s : LogState) (tok : Nat) (handle : Option Sink)
    (category : String) (enabled : Bool) : LogState :=
  let newID := s.highestLoggerID + 1
  let s2 := { s with
                highestLoggerID := newID
                loggers := s.loggers ++ [(tok, mkNewLogger handle category enabled newID)] }
  SetCategoryPadding s2 s2.categoryPadding

/-- Look a logger up by its pointer token. -/
def lookupLogger : List (Nat × Logger) → Nat → Option Logger
  | [], _ => none
  | p :: rest, tok => if p.1 = tok then some p.2 else lookupLogger rest tok

/-- Replace the logger stored under `tok` by `f` of it. -/
def modifyLogger (ls : List (Nat × Logger)) (tok : Nat) (f : Logger → Logger) :
    List (Nat × Logger) :=
  ls.map (fun p => if p.1 = tok then (p.1, f p.2) else p)

/-- One iteration of `AddLogger`'s loop: bump `highestLoggerID`, overwrite the
logger's id, store the pointer in the registry (an already-registered pointer
is re-keyed in place, a fresh one is inserted), and reset the padding width. -/
def AddLogger1 (s : LogState) (tok : Nat) (newLogger : Logger) : LogState :=
  let newID := s.highestLoggerID + 1
  let updated :=
    match lookupLogger s.loggers tok with
    | some old => modifyLogger s.loggers tok (fun _ => { old with id := newID })
    | none => s.loggers ++ [(tok, { newLogger with id := newID })]
  let s2 := { s with highestLoggerID := newID, loggers := updated }
  SetCategoryPadding s2 s2.categoryPadding

/-- `AddLogger`: register pre-constructed loggers one after the other. -/
def AddLogger (s : LogState) (newLoggers : List (Nat × Logger)) : LogState :=
  newLoggers.foldl (fun acc p => AddLogger1 acc p.1 p.2) s

/-- `SetCategoryGrouping` toggles category grouping. -/
def SetCategoryGrouping (s : LogState) (enabled : Bool) : LogState :=
  { s with categoryGrouping := enabled }

/-- `SetBuffered` selects the buffered or the rendezvous submission path. -/
def SetBuffered (s : LogState) (useBuffer : Bool) : LogState :=
  { s with bufferEnabled := useBuffer }

/-- `performLog` on the Logger value alone: when enabled, compose
`timestamp ++ " " ++ message` (plus a trailing newline for the blank-line
variant), build the write request capturing the current writer and category,
and bump the message count. -/
def Logger.performLog (l : Logger) (message : String) (newline : Bool)
    (now : DateTime) : Logger × Option queueItem :=
  if l.Enabled = false then (l, none)
  else
    let message := l.Timestamp.Compose now ++ " " ++ l.Message.Compose message
    let message := if newline then message ++ "\n" else message
    let newMsg : queueItem :=
      { writer := l.Writer, category := l.Category, message := message }
    ({ l with count := l.count + 1 }, some newMsg)

/-- A `Logx` call on the registered logger `tok`: run `performLog` and, when
the logger is enabled, store the updated counter and queue the request (on
either channel; both are drained by the same dispatcher). -/
def Logx (s : LogState) (tok : Nat) (message : String) (newline : Bool)
    (now : DateTime) : LogState :=
  match lookupLogger s.loggers tok with
  | none => s
  | some l =>
      match l.performLog message newline now with
      | (_, none) => s
      | (l2, some item) =>
          { s with
              loggers := modifyLogger s.loggers tok (fun _ => l2)
              queue := s.queue ++ [item] }

/-- `Log` method: log the (already `fmt.Sprint`-ed) message. -/
def Logger.Log (l : Logger) (msg : String) (now : DateTime) :
    Logger × Option queueItem :=
  l.performLog msg false now

/-- `Logf` method: log the (already `fmt.Sprintf`-ed) message. -/
def Logger.Logf (l : Logger) (formatted : String) (now : DateTime) :
    Logger × Option queueItem :=
  l.performLog formatted false now

/-- `Logln` method: log the message followed by a new line. -/
def Logger.Logln (l : Logger) (msg : String) (now : DateTime) :
    Logger × Option queueItem :=
  l.performLog msg true now

/-- Package-level `Log` function taking the Logger as an argument. -/
def Log (l : Logger) (msg : String) (now : DateTime) : Logger × Option queueItem :=
  l.performLog msg false now

/-- Package-level `Logf` function taking the Logger as an argument. -/
def Logf (l : Logger) (formatted : String) (now : DateTime) :
    Logger × Option queueItem :=
  l.performLog formatted false now

/-- Package-level `Logln` function taking the Logger as an argument. -/
def Logln (l : Logger) (msg : String) (now : DateTime) : Logger × Option queueItem :=
  l.performLog msg true now

/-- `Enable` enables the logger. -/
def Enable (s : LogState) (tok : Nat) : LogState :=
  { s with loggers := modifyLogger s.loggers tok (fun l => { l with Enabled := true }) }

/-- `Disable` disables the logger. -/
def Disable (s : LogState) (tok : Nat) : LogState :=
  { s with loggers := modifyLogger s.loggers tok (fun l => { l with Enabled := false }) }

/-- Swapping a logger's output destination (assignment to the exported
`Writer` field). -/
def SetOutput (s : LogState) (tok : Nat) (w : Option Sink) : LogState :=
  { s with loggers := modifyLogger s.loggers tok (fun l => { l with Writer := w }) }

/-- `SetEnabledByCategory`: set `Enabled` on every registered logger whose
category name matches one of the given names. -/
def SetEnabledByCategory (s : LogState) (enabled : Bool) (categories : List String) :
    LogState :=
  { s with
      loggers := s.loggers.map (fun p =>
        if p.2.Category.Name ∈ categories then (p.1, { p.2 with Enabled := enabled })
        else p) }

/-- `SetEnabledByID`: every registered logger becomes enabled exactly when its
id is at most the threshold. -/
def SetEnabledByID (s : LogState) (loggerID : Int) : LogState :=
  { s with
      loggers := s.loggers.map (fun p =>
        (p.1, { p.2 with Enabled := decide (p.2.id ≤ loggerID) })) }

/-- The ids of the registered loggers, in registration order. -/
def idsOf (s : LogState) : List Int := s.loggers.map (fun p => p.2.id)

/-- The states the package can be in: every run starts from the package
variables and applies API calls; `newL` registers through a fresh pointer
(Go allocates it), while `addL` accepts any caller-supplied pointer — with
`fresh = true` the relation is restricted to runs that never register the
same pointer twice.  A dispatch step consumes one queued entry (from either
channel) and must not panic. -/
inductive Reach : Bool → LogState → Prop where
  | init (fresh : Bool) : Reach fresh emptyState
  | newL (fresh : Bool) (s : LogState) (tok : Nat) (handle : Option Sink)
      (category : String) (enabled : Bool)
      (hfresh : lookupLogger s.loggers tok = none) (hr : Reach fresh s) :
      Reach fresh (NewLogger s tok handle category enabled)
  | addL (fresh : Bool) (s : LogState) (tok : Nat) (newLogger : Logger)
      (hfresh : fresh = true → lookupLogger s.loggers tok = none)
      (hr : Reach fresh s) : Reach fresh (AddLogger1 s tok newLogger)
  | setPad (fresh : Bool) (s : LogState) (enabled : Bool) (hr : Reach fresh s) :
      Reach fresh (SetCategoryPadding s enabled)
  | setGroup (fresh : Bool) (s : LogState) (enabled : Bool) (hr : Reach fresh s) :
      Reach fresh (SetCategoryGrouping s enabled)
  | setBuf (fresh : Bool) (s : LogState) (useBuffer : Bool) (hr : Reach fresh s) :
      Reach fresh (SetBuffered s useBuffer)
  | enableL (fresh : Bool) (s : LogState) (tok : Nat) (hr : Reach fresh s) :
      Reach fresh (Enable s tok)
  | disableL (fresh : Bool) (s : LogState) (tok : Nat) (hr : Reach fresh s) :
      Reach fresh (Disable s tok)
  | setOut (fresh : Bool) (s : LogState) (tok : Nat) (w : Option Sink)
      (hr : Reach fresh s) : Reach fresh (SetOutput s tok w)
  | setEnCat (fresh : Bool) (s : LogState) (enabled : Bool) (categories : List String)
      (hr : Reach fresh s) : Reach fresh (SetEnabledByCategory s enabled categories)
  | setEnID (fresh : Bool) (s : LogState) (loggerID : Int) (hr : Reach fresh s) :
      Reach fresh (SetEnabledByID s loggerID)
  | logx (fresh : Bool) (s : LogState) (tok : Nat) (message : String) (newline : Bool)
      (now : DateTime) (hr : Reach fresh s) :
      Reach fresh (Logx s tok message newline now)
  | dispatch (fresh : Bool) (s : LogState) (pre post : List queueItem)
      (item : queueItem) (s2 : LogState)
      (hq : s.queue = pre ++ item :: post)
      (hw : performWrite { s with queue := pre ++ post } item = some s2)
      (hr : Reach fresh s) : Reach fresh s2

/-! ### Concrete scenario states -/

/-- A fixed instant, 04/16 15:28:46. -/
def t0 : DateTime := { month := 4, day := 16, hour := 15, minute := 28, second := 46 }

/-- Three loggers whose composed categories have lengths 3, 7 and 0. -/
def demoState : LogState :=
  NewLogger (NewLogger (NewLogger emptyState 0 (some 0) "A" true) 1 (some 0) "ABCDE" true)
    2 (some 0) "" true

def itemA : queueItem :=
  { writer := some 0
    category := { Formatter := some SquareBracketWrapper, Name := "A" }
    message := "T" }

def itemB : queueItem :=
  { writer := some 0
    category := { Formatter := some SquareBracketWrapper, Name := "ABCDE" }
    message := "T" }

def itemC : queueItem :=
  { writer := some 0
    category := { Formatter := some SquareBracketWrapper, Name := "" }
    message := "T" }

/-- Four loggers with identities 0, 1, 2, 3. -/
def fourState : LogState :=
  NewLogger (NewLogger (NewLogger (NewLogger emptyState 0 (some 0) "A" true) 1 (some 0) "B" true)
    2 (some 0) "C" true) 3 (some 0) "D" true

/-- A caller-built Logger value, as in the bulk-registration example. -/
def preBuilt : Logger :=
  { Category := { Formatter := none, Name := "X" }
    Timestamp := { Format := "", Formatter := none }
    Message := { Formatter := none }
    Writer := some 0
    Enabled := true
    id := 0
    splunkEnabled := false
    counterEnabled := false
    counterName := ""
    count := 0 }

/-- Registering the same pre-built logger value (same pointer) twice. -/
def dupState : LogState := AddLogger emptyState [(5, preBuilt), (5, preBuilt)]

/-- A logger constructed with a nil destination that logs once (the demo
program's FILE logger before its destination is set). -/
def fileState : LogState := Logx (NewLogger emptyState 7 none "FILE" true) 7 "m" false t0

/-- `demoState` after its first logger accepts one log call. -/
def queuedState : LogState := Logx demoState 0 "T2" false t0

/-- The write request that the log call of `queuedState` submits. -/
def queuedItem : queueItem :=
  { writer := some 0
    category := { Formatter := some SquareBracketWrapper, Name := "A" }
    message := "04/16 15:28:46 T2" }

/-- A state whose last written category is ERR, with padding disabled. -/
def groupState : LogState :=
  { emptyState with categoryPadding := false, previousCategory := "ERR" }

def itemERR : queueItem :=
  { writer := some 0
    category := { Formatter := some SquareBracketWrapper, Name := "ERR" }
    message := "m" }

/-! ### Helper lemmas about the registry and the dispatcher -/

theorem spaces_length (n : Nat) : (spaces n).length = n := by
  simp [spaces, String.length]

theorem lookup_mem {ls : List (Nat × Logger)} {tok : Nat} {l : Logger}
    (h : lookupLogger ls tok = some l) : (tok, l) ∈ ls := by
  induction ls with
  | nil => simp [lookupLogger] at h
  | cons p rest ih =>
      rw [lookupLogger] at h
      by_cases hp : p.1 = tok
      · rw [if_pos hp] at h
        obtain ⟨a, b⟩ := p
        obtain rfl : a = tok := hp
        obtain rfl : b = l := by simpa using h
        exact List.mem_cons_self _ _
      · rw [if_neg hp] at h
        exact List.mem_cons_of_mem _ (ih h)

theorem lookup_none_not_mem {ls : List (Nat × Logger)} {tok : Nat}
    (h : lookupLogger ls tok = none) : tok ∉ ls.map (fun p => p.1) := by
  induction ls with
  | nil => simp
  | cons p rest ih =>
      rw [lookupLogger] at h
      by_cases hp : p.1 = tok
      · rw [if_pos hp] at h; exact absurd h (by simp)
      · rw [if_neg hp] at h
        simp only [List.map_cons, List.mem_cons]
        rintro (rfl | hmem)
        · exact hp rfl
        · exact ih h hmem

theorem keys_modifyLogger (ls : List (Nat × Logger)) (tok : Nat) (f : Logger → Logger) :
    (modifyLogger ls tok f).map (fun p => p.1) = ls.map (fun p => p.1) := by
  induction ls with
  | nil => rfl
  | cons p rest ih =>
      by_cases hp : p.1 = tok <;> simp [modifyLogger, hp] at ih ⊢ <;> exact ih

theorem lookup_modify_self {ls : List (Nat × Logger)} {tok : Nat} {l : Logger}
    (f : Logger → Logger) (h : lookupLogger ls tok = some l) :
    lookupLogger (modifyLogger ls tok f) tok = some (f l) := by
  induction ls with
  | nil => simp [lookupLogger] at h
  | cons p rest ih =>
      rw [lookupLogger] at h
      by_cases hp : p.1 = tok
      · rw [if_pos hp] at h
        obtain rfl : p.2 = l := by simpa using h
        simp [modifyLogger, lookupLogger, hp]
      · rw [if_neg hp] at h
        simp only [modifyLogger, List.map_cons, if_neg hp]
        rw [lookupLogger, if_neg hp]
        exact ih h

theorem mem_eq_of_lookup {ls : List (Nat × Logger)} {tok : Nat} {a l : Logger}
    (hnd : (ls.map (fun p => p.1)).Nodup) (hmem : (tok, a) ∈ ls)
    (h : lookupLogger ls tok = some l) : a = l := by
  induction ls with
  | nil => simp at hmem
  | cons p rest ih =>
      rw [List.map_cons, List.nodup_cons] at hnd
      rw [lookupLogger] at h
      rcases List.mem_cons.mp hmem with heq | hmem'
      · obtain ⟨a1, a2⟩ := p
        obtain ⟨rfl, rfl⟩ := Prod.mk.injEq .. ▸ heq.symm
        rw [if_pos rfl] at h
        simpa using h
      · by_cases hp : p.1 = tok
        · exfalso
          exact hnd.1 (hp ▸ List.mem_map.mpr ⟨(tok, a), hmem', rfl⟩)
        · rw [if_neg hp] at h
          exact ih hnd.2 hmem' h

theorem le_maxComposedLen {ls : List (Nat × Logger)} {p : Nat × Logger} (h : p ∈ ls) :
    (p.2.Category.Compose).length ≤ maxComposedLen ls := by
  induction ls with
  | nil => simp at h
  | cons q rest ih =>
      rw [maxComposedLen]
      rcases List.mem_cons.mp h with rfl | h'
      · exact Nat.le_max_right _ _
      · exact Nat.le_trans (ih h') (Nat.le_max_left _ _)

theorem maxComposedLen_attained (ls : List (Nat × Logger)) :
    maxComposedLen ls = 0 ∨
      ∃ p ∈ ls, maxComposedLen ls = (p.2.Category.Compose).length := by
  induction ls with
  | nil => exact Or.inl rfl
  | cons q rest ih =>
      rw [maxComposedLen]
      rcases Nat.le_total (maxComposedLen rest) (q.2.Category.Compose).length with hle | hle
      · exact Or.inr ⟨q, List.mem_cons_self _ _, Nat.max_eq_right hle⟩
      · rw [Nat.max_eq_left hle]
        rcases ih with h0 | ⟨p, hp, he⟩
        · exact Or.inl h0
        · exact Or.inr ⟨p, List.mem_cons_of_mem _ hp, he⟩

/-! ### Reachability invariants -/

/-- The parts of the state invariant that do not mention the padding width. -/
structure PreInv (s : LogState) : Prop where
  qLink : ∀ item ∈ s.queue, ∃ p ∈ s.loggers, item.category = p.2.Category
  idsNN : ∀ p ∈ s.loggers, 0 ≤ p.2.id
  hiNN : -1 ≤ s.highestLoggerID
  keysND : (s.loggers.map (fun p => p.1)).Nodup

/-- The state invariant: the padding width dominates every registered
composed category, every queued request carries the category of a registered
logger, ids are non-negative, and pointer tokens are unique. -/
structure Inv (s : LogState) : Prop where
  padOK : s.categoryPadding = true →
    ∀ p ∈ s.loggers, (p.2.Category.Compose).length ≤ s.maxCategorySize
  qLink : ∀ item ∈ s.queue, ∃ p ∈ s.loggers, item.category = p.2.Category
  idsNN : ∀ p ∈ s.loggers, 0 ≤ p.2.id
  hiNN : -1 ≤ s.highestLoggerID
  keysND : (s.loggers.map (fun p => p.1)).Nodup

theorem Inv.toPre {s : LogState} (h : Inv s) : PreInv s :=
  ⟨h.qLink, h.idsNN, h.hiNN, h.keysND⟩

theorem inv_setPad {s : LogState} {e : Bool} (h : PreInv s) :
    Inv (SetCategoryPadding s e) := by
  constructor
  · intro hpad p hp
    have he : e = true := hpad
    simp only [SetCategoryPadding, he, if_pos] at hp ⊢
    exact le_maxComposedLen hp
  · exact h.qLink
  · exact h.idsNN
  · exact h.hiNN
  · exact h.keysND

theorem preInv_append_fresh {s : LogState} {tok : Nat} {l : Logger}
    (h : PreInv s) (hid : l.id = s.highestLoggerID + 1)
    (hfresh : lookupLogger s.loggers tok = none) :
    PreInv { s with
               highestLoggerID := s.highestLoggerID + 1
               loggers := s.loggers ++ [(tok, l)] } := by
  constructor
  · intro item hitem
    obtain ⟨p, hp, hc⟩ := h.qLink item hitem
    exact ⟨p, List.mem_append_left _ hp, hc⟩
  · intro p hp
    rcases List.mem_append.mp hp with hp' | hp'
    · exact h.idsNN p hp'
    · have : p = (tok, l) := by simpa using hp'
      subst this
      have := h.hiNN
      simp only [hid]
      omega
  · have := h.hiNN; simp only []; omega
  · simp only [List.map_append, List.map_cons, List.map_nil]
    rw [List.nodup_append]
    refine ⟨h.keysND, List.nodup_singleton _, ?_⟩
    intro a ha hb
    have : a = tok := by simpa using hb
    subst this
    exact lookup_none_not_mem hfresh ha

theorem inv_mapLoggers {s : LogState} (h : Inv s) (g : Nat × Logger → Nat × Logger)
    (hkey : ∀ p ∈ s.loggers, (g p).1 = p.1)
    (hcat : ∀ p ∈ s.loggers, (g p).2.Category = p.2.Category)
    (hid : ∀ p ∈ s.loggers, (g p).2.id = p.2.id) :
    Inv { s with loggers := s.loggers.map g } := by
  constructor
  · intro hpad q hq
    obtain ⟨p, hp, rfl⟩ := List.mem_map.mp hq
    rw [hcat p hp]
    exact h.padOK hpad p hp
  · intro item hitem
    obtain ⟨p, hp, hc⟩ := h.qLink item hitem
    exact ⟨g p, List.mem_map.mpr ⟨p, hp, rfl⟩, by rw [hcat p hp]; exact hc⟩
  · intro q hq
    obtain ⟨p, hp, rfl⟩ := List.mem_map.mp hq
    rw [hid p hp]
    exact h.idsNN p hp
  · exact h.hiNN
  · have : (s.loggers.map g).map (fun p => p.1) = s.loggers.map (fun p => p.1) := by
      rw [List.map_map]
      exact List.map_congr_left (fun p hp => hkey p hp)
    rw [this]
    exact h.keysND

theorem performWrite_some {s : LogState} {item : queueItem} {s2 : LogState}
    (h : performWrite s item = some s2) :
    ∃ w line, item.writer = some w ∧
      s2 = { s with
               output := s.output ++ [(w, line)]
               previousCategory := item.category.Name } := by
  unfold performWrite at h
  dsimp only at h
  split at h
  · exact absurd h (by simp)
  · split at h
    · exact absurd h (by simp)
    · rename_i w hw
      exact ⟨w, _, hw, (by simpa using h.symm)⟩

theorem modify_const_cat {ls : List (Nat × Logger)} {tok : Nat} {old : Logger}
    (l2 : Logger) (hnd : (ls.map (fun p => p.1)).Nodup)
    (hl : lookupLogger ls tok = some old) (hcat : l2.Category = old.Category) :
    ∀ p ∈ ls, ((fun q => if q.1 = tok then (q.1, l2) else q) p).2.Category = p.2.Category := by
  intro p hp
  by_cases hp1 : p.1 = tok
  · have hmem : (tok, p.2) ∈ ls := by rw [← hp1]; simpa using hp
    have : p.2 = old := mem_eq_of_lookup hnd hmem hl
    simp [hp1, hcat, this]
  · simp [hp1]

theorem inv_emptyState : Inv emptyState := by
  constructor <;> simp [emptyState]

theorem inv_modify_queue {s : LogState} (h : Inv s) {tok : Nat} {l l2 : Logger}
    {item : queueItem} (hl : lookupLogger s.loggers tok = some l)
    (hcat : l2.Category = l.Category) (hid : l2.id = l.id)
    (hitemcat : item.category = l.Category) :
    Inv { s with
            loggers := modifyLogger s.loggers tok (fun _ => l2)
            queue := s.queue ++ [item] } := by
  constructor
  · intro hpad q hq
    simp only [modifyLogger] at hq
    obtain ⟨p, hp, rfl⟩ := List.mem_map.mp hq
    have := modify_const_cat l2 h.keysND hl hcat p hp
    simp only at this ⊢
    rw [this]
    exact h.padOK hpad p hp
  · intro it hit
    rcases List.mem_append.mp hit with hold | hnew
    · obtain ⟨p, hp, hc⟩ := h.qLink it hold
      refine ⟨(fun q => if q.1 = tok then (q.1, l2) else q) p, ?_, ?_⟩
      · simp only [modifyLogger]
        exact List.mem_map.mpr ⟨p, hp, rfl⟩
      · rw [modify_const_cat l2 h.keysND hl hcat p hp]
        exact hc
    · have hit' : it = item := by simpa using hnew
      subst hit'
      refine ⟨(tok, l2), ?_, ?_⟩
      · simp only [modifyLogger]
        exact List.mem_map.mpr ⟨(tok, l), lookup_mem hl, by simp⟩
      · simpa [hcat] using hitemcat
  · intro q hq
    simp only [modifyLogger] at hq
    obtain ⟨p, hp, rfl⟩ := List.mem_map.mp hq
    by_cases hp1 : p.1 = tok
    · have hmem : (tok, p.2) ∈ s.loggers := by rw [← hp1]; simpa using hp
      have hpl : p.2 = l := mem_eq_of_lookup h.keysND hmem hl
      simp only [hp1, if_pos]
      rw [hid, ← hpl]
      exact h.idsNN p hp
    · simp only [hp1, if_neg, not_false_iff]
      exact h.idsNN p hp
  · exact h.hiNN
  · rw [keys_modifyLogger]
    exact h.keysND

theorem preInv_addl_some {s : LogState} {tok : Nat} {old : Logger} (h : Inv s)
    (hl : lookupLogger s.loggers tok = some old) :
    PreInv { s with
               highestLoggerID := s.highestLoggerID + 1
               loggers := modifyLogger s.loggers tok
                 (fun _ => { old with id := s.highestLoggerID + 1 }) } := by
  constructor
  · intro it hit
    obtain ⟨p, hp, hc⟩ := h.qLink it hit
    refine ⟨(fun q => if q.1 = tok then (q.1, { old with id := s.highestLoggerID + 1 }) else q) p,
      ?_, ?_⟩
    · simp only [modifyLogger]
      exact List.mem_map.mpr ⟨p, hp, rfl⟩
    · rw [modify_const_cat { old with id := s.highestLoggerID + 1 } h.keysND hl rfl p hp]
      exact hc
  · intro q hq
    simp only [modifyLogger] at hq
    obtain ⟨p, hp, rfl⟩ := List.mem_map.mp hq
    by_cases hp1 : p.1 = tok
    · have := h.hiNN
      simp only [hp1, if_pos]
      omega
    · simp only [hp1, if_neg, not_false_iff]
      exact h.idsNN p hp
  · have := h.hiNN
    simp only []
    omega
  · rw [keys_modifyLogger]
    exact h.keysND

theorem inv_dispatch {s : LogState} {pre post : List queueItem} {item : queueItem}
    {s2 : LogState} (h : Inv s) (hq : s.queue = pre ++ item :: post)
    (hw : performWrite { s with queue := pre ++ post } item = some s2) : Inv s2 := by
  obtain ⟨w, line, hwr, rfl⟩ := performWrite_some hw
  constructor
  · exact h.padOK
  · intro it hit
    apply h.qLink
    rw [hq]
    simp only at hit
    rcases List.mem_append.mp hit with h1 | h1
    · exact List.mem_append_left _ h1
    · exact List.mem_append_right _ (List.mem_cons_of_mem _ h1)
  · exact h.idsNN
  · exact h.hiNN
  · exact h.keysND

theorem inv_logx {s : LogState} (h : Inv s) (tok : Nat) (msg : String) (nl : Bool)
    (now : DateTime) : Inv (Logx s tok msg nl now) := by
  unfold Logx
  cases hl : lookupLogger s.loggers tok with
  | none => exact h
  | some l =>
      cases hE : l.Enabled with
      | false => simp only [Logger.performLog, hE, if_pos]; exact h
      | true =>
          simp only [Logger.performLog, hE]
          simp only [Bool.true_eq_false, if_neg, not_false_iff]
          exact inv_modify_queue h hl rfl rfl rfl

/-- Every reachable package state satisfies the invariant. -/
theorem inv_of_reach {fresh : Bool} {s : LogState} (h : Reach fresh s) : Inv s := by
  induction h with
  | init => exact inv_emptyState
  | newL s tok handle category enabled hfresh hr ih =>
      exact inv_setPad (preInv_append_fresh ih.toPre rfl hfresh)
  | addL s tok newLogger hfresh hr ih =>
      unfold AddLogger1
      cases hl : lookupLogger s.loggers tok with
      | none =>
          simp only [hl]
          exact inv_setPad (preInv_append_fresh ih.toPre rfl hl)
      | some old =>
          simp only [hl]
          exact inv_setPad (preInv_addl_some ih hl)
  | setPad s enabled hr ih => exact inv_setPad ih.toPre
  | setGroup s enabled hr ih =>
      exact ⟨ih.padOK, ih.qLink, ih.idsNN, ih.hiNN, ih.keysND⟩
  | setBuf s useBuffer hr ih =>
      exact ⟨ih.padOK, ih.qLink, ih.idsNN, ih.hiNN, ih.keysND⟩
  | enableL s tok hr ih =>
      exact inv_mapLoggers ih _ (fun p _ => by by_cases hp : p.1 = tok <;> simp [hp])
        (fun p _ => by by_cases hp : p.1 = tok <;> simp [hp])
        (fun p _ => by by_cases hp : p.1 = tok <;> simp [hp])
  | disableL s tok hr ih =>
      exact inv_mapLoggers ih _ (fun p _ => by by_cases hp : p.1 = tok <;> simp [hp])
        (fun p _ => by by_cases hp : p.1 = tok <;> simp [hp])
        (fun p _ => by by_cases hp : p.1 = tok <;> simp [hp])
  | setOut s tok w hr ih =>
      exact inv_mapLoggers ih _ (fun p _ => by by_cases hp : p.1 = tok <;> simp [hp])
        (fun p _ => by by_cases hp : p.1 = tok <;> simp [hp])
        (fun p _ => by by_cases hp : p.1 = tok <;> simp [hp])
  | setEnCat s enabled categories hr ih =>
      exact inv_mapLoggers ih _
        (fun p _ => by by_cases hp : p.2.Category.Name ∈ categories <;> simp [hp])
        (fun p _ => by by_cases hp : p.2.Category.Name ∈ categories <;> simp [hp])
        (fun p _ => by by_cases hp : p.2.Category.Name ∈ categories <;> simp [hp])
  | setEnID s loggerID hr ih =>
      exact inv_mapLoggers ih _ (fun p _ => by simp) (fun p _ => by simp) (fun p _ => by simp)
  | logx s tok message newline now hr ih => exact inv_logx ih tok message newline now
  | dispatch s pre post item s2 hq hw hr ih => exact inv_dispatch ih hq hw

/-- With only fresh registrations, the registered ids are exactly
`0, 1, 2, ...` in registration order, and `highestLoggerID` is the last. -/
structure InvF (s : LogState) : Prop where
  dense : idsOf s = (List.range s.loggers.length).map Int.ofNat
  hiLen : s.highestLoggerID = (s.loggers.length : Int) - 1

theorem map_ids {ls : List (Nat × Logger)} (g : Nat × Logger → Nat × Logger)
    (hid : ∀ p ∈ ls, (g p).2.id = p.2.id) :
    (ls.map g).map (fun p => p.2.id) = ls.map (fun p => p.2.id) := by
  rw [List.map_map]
  exact List.map_congr_left hid

theorem modify_const_id {ls : List (Nat × Logger)} {tok : Nat} {old : Logger}
    (l2 : Logger) (hnd : (ls.map (fun p => p.1)).Nodup)
    (hl : lookupLogger ls tok = some old) (hid : l2.id = old.id) :
    ∀ p ∈ ls, ((fun q => if q.1 = tok then (q.1, l2) else q) p).2.id = p.2.id := by
  intro p hp
  by_cases hp1 : p.1 = tok
  · have hmem : (tok, p.2) ∈ ls := by rw [← hp1]; simpa using hp
    have : p.2 = old := mem_eq_of_lookup hnd hmem hl
    simp [hp1, hid, this]
  · simp [hp1]

theorem invF_append {s : LogState} {tok : Nat} {l : Logger} (h : InvF s)
    (hid : l.id = s.highestLoggerID + 1) {e : Bool} :
    InvF (SetCategoryPadding
      { s with
          highestLoggerID := s.highestLoggerID + 1
          loggers := s.loggers ++ [(tok, l)] } e) := by
  obtain ⟨hd, hh⟩ := h
  constructor
  · show (s.loggers ++ [(tok, l)]).map (fun p => p.2.id) =
      (List.range (s.loggers ++ [(tok, l)]).length).map Int.ofNat
    have hlen : (s.loggers ++ [(tok, l)]).length = s.loggers.length + 1 := by simp
    rw [hlen, List.range_succ, List.map_append, List.map_append]
    rw [idsOf] at hd
    rw [hd]
    congr 1
    show [l.id] = [Int.ofNat s.loggers.length]
    simp only [hid, List.cons.injEq, and_true, Int.ofNat_eq_coe]
    omega
  · show s.highestLoggerID + 1 = ((s.loggers ++ [(tok, l)]).length : Int) - 1
    have hlen : (s.loggers ++ [(tok, l)]).length = s.loggers.length + 1 := by simp
    rw [hlen]
    push_cast
    omega

theorem invF_map {s : LogState} (h : InvF s) (g : Nat × Logger → Nat × Logger)
    (hid : ∀ p ∈ s.loggers, (g p).2.id = p.2.id) :
    InvF { s with loggers := s.loggers.map g } := by
  obtain ⟨hd, hh⟩ := h
  constructor
  · show (s.loggers.map g).map (fun p => p.2.id) = _
    rw [map_ids g hid]
    simpa [idsOf, List.length_map] using hd
  · simpa [List.length_map] using hh

theorem invF_of_fields {s1 s2 : LogState} (h : InvF s1)
    (hids : s2.loggers.map (fun p => p.2.id) = s1.loggers.map (fun p => p.2.id))
    (hlen : s2.loggers.length = s1.loggers.length)
    (hhi : s2.highestLoggerID = s1.highestLoggerID) : InvF s2 := by
  obtain ⟨hd, hh⟩ := h
  constructor
  · show s2.loggers.map (fun p => p.2.id) = _
    rw [hids, hlen]
    exact hd
  · rw [hhi, hlen]
    exact hh

/-- Every state of a run that never registers the same logger value twice has
densely increasing ids. -/
theorem invF_of_reach {fresh : Bool} {s : LogState} (h : Reach fresh s) :
    fresh = true → InvF s := by
  induction h with
  | init =>
      intro _
      constructor <;> simp [idsOf, emptyState]
  | newL s tok handle category enabled hfresh hr ih =>
      intro hf
      exact invF_append (ih hf) rfl
  | addL s tok newLogger hfresh hr ih =>
      intro hf
      unfold AddLogger1
      rw [hfresh hf]
      exact invF_append (ih hf) rfl
  | setPad s enabled hr ih =>
      intro hf
      obtain ⟨hd, hh⟩ := ih hf
      exact ⟨hd, hh⟩
  | setGroup s enabled hr ih => exact fun hf => ⟨(ih hf).dense, (ih hf).hiLen⟩
  | setBuf s useBuffer hr ih => exact fun hf => ⟨(ih hf).dense, (ih hf).hiLen⟩
  | enableL s tok hr ih =>
      intro hf
      exact invF_map (ih hf) _ (fun p _ => by by_cases hp : p.1 = tok <;> simp [hp])
  | disableL s tok hr ih =>
      intro hf
      exact invF_map (ih hf) _ (fun p _ => by by_cases hp : p.1 = tok <;> simp [hp])
  | setOut s tok w hr ih =>
      intro hf
      exact invF_map (ih hf) _ (fun p _ => by by_cases hp : p.1 = tok <;> simp [hp])
  | setEnCat s enabled categories hr ih =>
      intro hf
      exact invF_map (ih hf) _
        (fun p _ => by by_cases hp : p.2.Category.Name ∈ categories <;> simp [hp])
  | setEnID s loggerID hr ih =>
      intro hf
      exact invF_map (ih hf) _ (fun p _ => by simp)
  | logx s tok message newline now hr ih =>
      intro hf
      have hInv := inv_of_reach hr
      unfold Logx
      cases hl : lookupLogger s.loggers tok with
      | none => exact ih hf
      | some l =>
          cases hE : l.Enabled with
          | false => simp only [Logger.performLog, hE, if_pos]; exact ih hf
          | true =>
              have hstep : l.performLog message newline now =
                  ({ l with count := l.count + 1 },
                   some { writer := l.Writer, category := l.Category,
                          message :=
                            if newline = true then
                              l.Timestamp.Compose now ++ " " ++ l.Message.Compose message ++ "\n"
                            else l.Timestamp.Compose now ++ " " ++ l.Message.Compose message }) := by
                simp [Logger.performLog, hE]
              simp only [hstep]
              refine invF_of_fields (ih hf) ?_ ?_ ?_
              · exact map_ids _ (modify_const_id { l with count := l.count + 1 } hInv.keysND hl rfl)
              · exact List.length_map _ _
              · rfl
  | dispatch s pre post item s2 hq hw hr ih =>
      intro hf
      obtain ⟨w, line, hwr, rfl⟩ := performWrite_some hw
      exact ⟨(ih hf).dense, (ih hf).hiLen⟩

/-! ### Characterizations of the write and log steps -/

theorem string_append_assoc (a b c : String) : a ++ b ++ c = a ++ (b ++ c) := by
  apply String.ext
  simp [String.data_append, List.append_assoc]

/-- The successful write step, in closed form: requires that the padding
count cannot go negative (true in every reachable state). -/
theorem performWrite_eq {s : LogState} {item : queueItem} {w : Sink}
    (hw : item.writer = some w)
    (hnn : s.categoryPadding = true → (item.category.Compose).length ≤ s.maxCategorySize) :
    performWrite s item = some { s with
      output := s.output ++ [(w,
        (if s.categoryGrouping = true ∧ s.previousCategory = item.category.Name
         then spaces (item.category.Compose).length
         else item.category.Compose) ++
        (if s.categoryPadding then
           spaces (s.maxCategorySize - (item.category.Compose).length + 1)
         else if item.category.Name ≠ "" then " " else "") ++
        item.message ++ "\n")]
      previousCategory := item.category.Name } := by
  by_cases hpad : s.categoryPadding = true
  · have hle := hnn hpad
    have hcount : ((s.maxCategorySize : Int) - ((item.category.Compose).length : Int) + 1).toNat
        = s.maxCategorySize - (item.category.Compose).length + 1 := by omega
    have hrs : repeatSpace ((s.maxCategorySize : Int) - ((item.category.Compose).length : Int) + 1)
        = some (spaces (s.maxCategorySize - (item.category.Compose).length + 1)) := by
      unfold repeatSpace
      rw [if_neg (by omega), hcount]
      rfl
    simp [performWrite, hpad, hrs, hw]
  · rw [Bool.not_eq_true] at hpad
    simp [performWrite, hpad, hw, show ("" : String) ++ " " = " " from rfl]

/-- Any successful write appends one line, built from the (possibly blanked)
category text, some padding, the request's message and a newline, and then
records the category name. -/
theorem performWrite_line {s : LogState} {item : queueItem} {s2 : LogState}
    (h : performWrite s item = some s2) :
    ∃ w padding, item.writer = some w ∧
      s2 = { s with
               output := s.output ++ [(w,
                 (if s.categoryGrouping = true ∧ s.previousCategory = item.category.Name
                  then spaces (item.category.Compose).length
                  else item.category.Compose) ++ padding ++ item.message ++ "\n")]
               previousCategory := item.category.Name } := by
  unfold performWrite at h
  dsimp only at h
  split at h
  · exact absurd h (by simp)
  · rename_i padding0 hpad0
    split at h
    · exact absurd h (by simp)
    · rename_i w hw
      refine ⟨w, if ¬item.category.Name = "" ∧ s.categoryPadding = false then padding0 ++ " "
        else padding0, hw, ?_⟩
      simpa using h.symm

theorem performLog_enabled {l : Logger} {msg : String} {nl : Bool} {now : DateTime}
    (hE : l.Enabled = true) :
    l.performLog msg nl now =
      ({ l with count := l.count + 1 },
       some { writer := l.Writer, category := l.Category,
              message :=
                if nl = true then
                  l.Timestamp.Compose now ++ " " ++ l.Message.Compose msg ++ "\n"
                else l.Timestamp.Compose now ++ " " ++ l.Message.Compose msg }) := by
  simp [Logger.performLog, hE]

theorem performLog_disabled {l : Logger} {msg : String} {nl : Bool} {now : DateTime}
    (hE : l.Enabled = false) : l.performLog msg nl now = (l, none) := by
  simp [Logger.performLog, hE]

/-- Rendering of the default layout: month, day, hour, minute, second, each
two digits. -/
theorem default_format_render (now : DateTime) :
    Timestamp.Compose { Format := "01/02 15:04:05", Formatter := none } now =
      pad2 now.month ++ "/" ++ pad2 now.day ++ " " ++ pad2 now.hour ++ ":" ++
        pad2 now.minute ++ ":" ++ pad2 now.second := by
  have h1 : Timestamp.Compose { Format := "01/02 15:04:05", Formatter := none } now =
      goTimeFormat "01/02 15:04:05" now := by
    simp [Timestamp.Compose]
  rw [h1]
  apply String.ext
  show goFormatChars ("01/02 15:04:05").data now = _
  have hd : ("01/02 15:04:05").data =
      ['0', '1', '/', '0', '2', ' ', '1', '5', ':', '0', '4', ':', '0', '5'] := rfl
  rw [hd]
  have hstep : goFormatChars
      ['0', '1', '/', '0', '2', ' ', '1', '5', ':', '0', '4', ':', '0', '5'] now =
      (pad2 now.month).data ++ ('/' :: ((pad2 now.day).data ++ (' ' :: ((pad2 now.hour).data ++
        (':' :: ((pad2 now.minute).data ++ (':' :: ((pad2 now.second).data ++
          ([] : List Char))))))))) := by
    rfl
  rw [hstep]
  simp [String.data_append, List.append_assoc,
    show ("/" : String).data = ['/'] from rfl,
    show (" " : String).data = [' '] from rfl,
    show (":" : String).data = [':'] from rfl]

theorem reach_demoState (fresh : Bool) : Reach fresh demoState :=
  Reach.newL fresh _ 2 (some 0) "" true rfl
    (Reach.newL fresh _ 1 (some 0) "ABCDE" true rfl
      (Reach.newL fresh _ 0 (some 0) "A" true rfl (Reach.init fresh)))

theorem reach_fourState (fresh : Bool) : Reach fresh fourState :=
  Reach.newL fresh _ 3 (some 0) "D" true rfl
    (Reach.newL fresh _ 2 (some 0) "C" true rfl
      (Reach.newL fresh _ 1 (some 0) "B" true rfl
        (Reach.newL fresh _ 0 (some 0) "A" true rfl (Reach.init fresh))))

theorem reach_queuedState (fresh : Bool) : Reach fresh queuedState :=
  Reach.logx fresh demoState 0 "T2" false t0 (reach_demoState fresh)

theorem append_nl_nl (a x : String) : a ++ (x ++ "\n") ++ "\n" = a ++ x ++ "\n\n" := by
  apply String.ext
  simp [String.data_append, List.append_assoc,
    show ("\n" : String).data = ['\n'] from rfl,
    show ("\n\n" : String).data = ['\n', '\n'] from rfl]

/-! ### The claims -/

/-- C1 counterexample: in a reachable run — a logger constructed with a nil
destination accepts one log call — processing the queued entry is not a
silent no-op: the write step fails (the nil-writer panic of `fmt.Fprintln`),
so it neither succeeds nor merely discards the output. -/
theorem C1_cex_nil_sink_panics :
    fileState.queue.map (fun item => item.writer) = [none] ∧
    fileState.queue.map (fun item => performWrite { fileState with queue := [] } item) =
      [none] :=
  ⟨rfl, rfl⟩

/-- C1 (amended): an entry whose destination sink is null makes the
dispatcher's write step fail (Go panics calling `Write` on a nil
`io.Writer`): it produces no output and leaves the grouping state
unchanged, but it is a fault, not a silent no-op. -/
theorem C1_nil_sink_write_fails :
    ∀ (s : LogState) (item : queueItem), item.writer = none →
      performWrite s item = none := by
  intro s item h
  unfold performWrite
  dsimp only
  split
  · rfl
  · rw [h]

theorem C1_nil_sink_write_fails_witness :
    performWrite emptyState
      { writer := none, category := { Formatter := none, Name := "N" }, message := "x" } =
      none :=
  C1_nil_sink_write_fails emptyState _ rfl

/-- C3: for every dispatched entry, when grouping is enabled and the entry's
category name equals the global last written category name, the composed
category text is replaced by spaces of equal length in the assembled line;
and every completed write sets the last written category name to the entry's
category name unconditionally. -/
theorem C3_grouping_blank_and_update :
    (∀ (s : LogState) (item : queueItem) (s2 : LogState),
      s.categoryGrouping = true → s.previousCategory = item.category.Name →
      performWrite s item = some s2 →
      ∃ w padding, item.writer = some w ∧
        s2.output = s.output ++ [(w, spaces (item.category.Compose).length ++ padding ++
          item.message ++ "\n")]) ∧
    (∀ (s : LogState) (item : queueItem) (s2 : LogState),
      performWrite s item = some s2 → s2.previousCategory = item.category.Name) := by
  constructor
  · intro s item s2 hg hprev h
    obtain ⟨w, padding, hw, rfl⟩ := performWrite_line h
    refine ⟨w, padding, hw, ?_⟩
    simp [hg, hprev]
  · intro s item s2 h
    obtain ⟨w, line, hwr, rfl⟩ := performWrite_some h
    rfl

theorem C3_grouping_blank_and_update_witness :
    (({ groupState with
          output := [((0 : Sink), "      m\n")]
          previousCategory := "ERR" } : LogState)).output.length = 1 := by
  obtain ⟨w, padding, hw, hout⟩ := C3_grouping_blank_and_update.1 groupState itemERR
    { groupState with output := [((0 : Sink), "      m\n")], previousCategory := "ERR" }
    rfl rfl rfl
  rw [hout]
  rfl

/-- C10: the package-level `Log`, `Logf` and `Logln` functions are the same
operation as the corresponding `Logger` methods: same enabled gating, same
count increment, identical submitted write request. -/
theorem C10_package_functions_equal_methods :
    ∀ (l : Logger) (msg formatted lnmsg : String) (now : DateTime),
      Log l msg now = Logger.Log l msg now ∧
      Logf l formatted now = Logger.Logf l formatted now ∧
      Logln l lnmsg now = Logger.Logln l lnmsg now :=
  fun _ _ _ _ _ => ⟨rfl, rfl, rfl⟩

/-- C2: for every dispatched entry in a reachable state, the inserted padding
is exactly max(0, maxCategorySize - len(composed category) + 1) spaces when
padding is enabled, exactly one space when padding is disabled and the
category name is non-empty, and empty when the name is empty with padding
disabled; with registered composed-category lengths 3, 7 and 0 the width is
7 and the text after the category-plus-padding prefix starts at column 8 on
every line. -/
theorem C2_padding_exact :
    (∀ (fresh : Bool) (s : LogState) (pre post : List queueItem) (item : queueItem) (w : Sink),
      Reach fresh s → s.queue = pre ++ item :: post → item.writer = some w →
      ∃ catText : String, catText.length = (item.category.Compose).length ∧
        performWrite { s with queue := pre ++ post } item =
          some { s with
                   queue := pre ++ post
                   output := s.output ++ [(w, catText ++
                     (if s.categoryPadding then
                        spaces (Int.toNat (max 0 ((s.maxCategorySize : Int) -
                          ((item.category.Compose).length : Int) + 1)))
                      else if item.category.Name ≠ "" then " " else "") ++
                     item.message ++ "\n")]
                   previousCategory := item.category.Name }) ∧
    demoState.maxCategorySize = 7 ∧
    (performWrite demoState itemA).map (fun s2 => s2.output) = some [(0, "[A]     T\n")] ∧
    (performWrite demoState itemB).map (fun s2 => s2.output) = some [(0, "[ABCDE] T\n")] ∧
    (performWrite demoState itemC).map (fun s2 => s2.output) = some [(0, "        T\n")] ∧
    ("[A]     " : String).length = 8 ∧ ("[ABCDE] " : String).length = 8 ∧
    ("        " : String).length = 8 := by
  refine ⟨?_, by decide, by decide, by decide, by decide, by decide, by decide, by decide⟩
  intro fresh s pre post item w hr hq hw
  have hInv := inv_of_reach hr
  have hmem : item ∈ s.queue := by
    rw [hq]
    exact List.mem_append_right _ (List.mem_cons_self _ _)
  obtain ⟨p, hp, hcat⟩ := hInv.qLink item hmem
  have hle0 : s.categoryPadding = true → (item.category.Compose).length ≤ s.maxCategorySize := by
    intro hpad
    rw [hcat]
    exact hInv.padOK hpad p hp
  refine ⟨(if s.categoryGrouping = true ∧ s.previousCategory = item.category.Name
           then spaces (item.category.Compose).length else item.category.Compose), ?_, ?_⟩
  · split
    · exact spaces_length _
    · rfl
  · have hpadeq :
        (if s.categoryPadding then
           spaces (s.maxCategorySize - (item.category.Compose).length + 1)
         else if item.category.Name ≠ "" then " " else "") =
        (if s.categoryPadding then
           spaces (Int.toNat (max 0 ((s.maxCategorySize : Int) -
             ((item.category.Compose).length : Int) + 1)))
         else if item.category.Name ≠ "" then " " else "") := by
      by_cases hpad : s.categoryPadding = true
      · have hle := hle0 hpad
        rw [hpad]
        simp only [if_pos]
        congr 1
        omega
      · rw [Bool.not_eq_true] at hpad
        simp [hpad]
    have hnn : ({ s with queue := pre ++ post } : LogState).categoryPadding = true →
        (item.category.Compose).length ≤
          ({ s with queue := pre ++ post } : LogState).maxCategorySize := hle0
    have heq := performWrite_eq hw hnn
    rw [heq]
    dsimp only
    rw [hpadeq]

theorem C2_padding_exact_witness :
    (performWrite { queuedState with queue := ([] : List queueItem) ++ [] }
      queuedItem).isSome = true := by
  obtain ⟨catText, hlen, heq⟩ := C2_padding_exact.1 false queuedState [] [] queuedItem 0
    (reach_queuedState false) rfl rfl
  rw [heq]
  rfl

theorem append_pad_nl (a p x : String) :
    a ++ p ++ (x ++ "\n") ++ "\n" = a ++ p ++ x ++ "\n\n" := by
  apply String.ext
  simp [String.data_append, List.append_assoc,
    show ("\n" : String).data = ['\n'] from rfl,
    show ("\n\n" : String).data = ['\n', '\n'] from rfl]

/-- C4: for every accepted log call the written line is exactly the category
text, the padding, the timestamp text, one space, the message text and the
terminator; the terminator is one newline (the request message carries none
and `Fprintln` appends one), except for `Logln`, whose request carries one
extra newline so the line ends in two; a freshly constructed logger's
default layout renders `MM/DD HH:MM:SS`. -/
theorem C4_line_format :
    (∀ (l : Logger) (msg : String) (nl : Bool) (now : DateTime), l.Enabled = true →
      (l.performLog msg nl now).2 =
        some { writer := l.Writer, category := l.Category,
               message :=
                 if nl = true then
                   l.Timestamp.Compose now ++ " " ++ l.Message.Compose msg ++ "\n"
                 else l.Timestamp.Compose now ++ " " ++ l.Message.Compose msg }) ∧
    (∀ (s : LogState) (item : queueItem) (s2 : LogState), performWrite s item = some s2 →
      ∃ w catText padding, item.writer = some w ∧
        s2.output = s.output ++ [(w, catText ++ padding ++ item.message ++ "\n")]) ∧
    (∀ (l : Logger) (msg : String) (now : DateTime) (s : LogState) (item : queueItem)
        (s2 : LogState), l.Enabled = true → (l.Logln msg now).2 = some item →
      performWrite s item = some s2 →
      ∃ w catText padding, item.writer = some w ∧
        s2.output = s.output ++ [(w, catText ++ padding ++
          (l.Timestamp.Compose now ++ " " ++ l.Message.Compose msg) ++ "\n\n")]) ∧
    (∀ now : DateTime,
      Timestamp.Compose { Format := "01/02 15:04:05", Formatter := none } now =
        pad2 now.month ++ "/" ++ pad2 now.day ++ " " ++ pad2 now.hour ++ ":" ++
          pad2 now.minute ++ ":" ++ pad2 now.second) ∧
    (∀ (handle : Option Sink) (category : String) (enabled : Bool) (newID : Int),
      (mkNewLogger handle category enabled newID).Timestamp =
        { Format := "01/02 15:04:05", Formatter := none }) := by
  refine ⟨?_, ?_, ?_, default_format_render, fun _ _ _ _ => rfl⟩
  · intro l msg nl now hE
    rw [performLog_enabled hE]
  · intro s item s2 h
    obtain ⟨w, padding, hw, rfl⟩ := performWrite_line h
    exact ⟨w, _, padding, hw, rfl⟩
  · intro l msg now s item s2 hE hln hpw
    have h2 : (l.Logln msg now).2 =
        some { writer := l.Writer, category := l.Category,
               message := l.Timestamp.Compose now ++ " " ++ l.Message.Compose msg ++ "\n" } := by
      show (l.performLog msg true now).2 = _
      rw [performLog_enabled hE]
      rfl
    rw [h2] at hln
    have hitem := Option.some.inj hln
    have hmsg : item.message =
        l.Timestamp.Compose now ++ " " ++ l.Message.Compose msg ++ "\n" := by
      rw [← hitem]
    obtain ⟨w, padding, hw, rfl⟩ := performWrite_line hpw
    refine ⟨w, (if s.categoryGrouping = true ∧ s.previousCategory = item.category.Name
      then spaces (item.category.Compose).length else item.category.Compose), padding, hw, ?_⟩
    dsimp only
    rw [hmsg, append_pad_nl]

theorem C4_line_format_witness :
    ((mkNewLogger (some 0) "INFO" true 0).performLog "hello" false t0).2.map
      (fun item => item.message) = some "04/16 15:28:46 hello" := by
  have h := C4_line_format.1 (mkNewLogger (some 0) "INFO" true 0) "hello" false t0 rfl
  rw [h]
  rfl

/-- C5: while disabled, a log call neither submits a write nor changes the
message count (the whole state is untouched); while enabled, each call
increments the count by exactly one at submission time and queues exactly
one request; re-enabling simply flips the flag back, so suppressed calls are
never replayed. -/
theorem C5_gating_and_count :
    (∀ (l : Logger) (msg : String) (nl : Bool) (now : DateTime), l.Enabled = false →
      l.performLog msg nl now = (l, none)) ∧
    (∀ (s : LogState) (tok : Nat) (l : Logger) (msg : String) (nl : Bool) (now : DateTime),
      lookupLogger s.loggers tok = some l → l.Enabled = false →
      Logx s tok msg nl now = s) ∧
    (∀ (s : LogState) (tok : Nat) (l : Logger) (msg : String) (nl : Bool) (now : DateTime),
      lookupLogger s.loggers tok = some l → l.Enabled = true →
      ∃ item, (Logx s tok msg nl now).queue = s.queue ++ [item] ∧
        lookupLogger (Logx s tok msg nl now).loggers tok =
          some { l with count := l.count + 1 } ∧
        ({ l with count := l.count + 1 } : Logger).Count = l.Count + 1) ∧
    (∀ (s : LogState) (tok : Nat) (l : Logger), lookupLogger s.loggers tok = some l →
      lookupLogger (Enable s tok).loggers tok = some { l with Enabled := true }) := by
  refine ⟨fun l msg nl now hE => performLog_disabled hE, ?_, ?_, ?_⟩
  · intro s tok l msg nl now hl hE
    simp [Logx, hl, performLog_disabled hE]
  · intro s tok l msg nl now hl hE
    simp only [Logx, hl, performLog_enabled hE]
    refine ⟨_, rfl, ?_, rfl⟩
    exact lookup_modify_self _ hl
  · intro s tok l hl
    exact lookup_modify_self (fun l => { l with Enabled := true }) hl

theorem C5_gating_and_count_witness :
    (Logx fourState 0 "m" false t0).queue.length = fourState.queue.length + 1 := by
  obtain ⟨item, hqueue, hlook, hcount⟩ :=
    C5_gating_and_count.2.2.1 fourState 0 (mkNewLogger (some 0) "A" true 0) "m" false t0 rfl rfl
  rw [hqueue]
  simp

/-- C6: `SetEnabledByID` replaces every registered logger's enabled flag by
the comparison of its identity against the threshold, independent of prior
state; any negative threshold disables every logger (identities are never
negative in a reachable state); with identities 0,1,2,3 a threshold of 1
enables exactly 0 and 1. -/
theorem C6_enable_by_identity :
    (∀ (s : LogState) (t : Int),
      (SetEnabledByID s t).loggers.map (fun p => (p.2.id, p.2.Enabled)) =
        s.loggers.map (fun p => (p.2.id, decide (p.2.id ≤ t)))) ∧
    (∀ (fresh : Bool) (s : LogState) (t : Int), Reach fresh s → t < 0 →
      (SetEnabledByID s t).loggers.map (fun p => p.2.Enabled) =
        s.loggers.map (fun _ => false)) ∧
    (SetEnabledByID fourState 1).loggers.map (fun p => (p.2.id, p.2.Enabled)) =
      [(0, true), (1, true), (2, false), (3, false)] ∧
    (SetEnabledByID fourState (-1)).loggers.map (fun p => p.2.Enabled) =
      [false, false, false, false] := by
  refine ⟨?_, ?_, by decide, by decide⟩
  · intro s t
    simp [SetEnabledByID, List.map_map]
  · intro fresh s t hr ht
    have hids := (inv_of_reach hr).idsNN
    simp only [SetEnabledByID, List.map_map]
    apply List.map_congr_left
    intro p hp
    have h0 := hids p hp
    simp only [Function.comp]
    exact decide_eq_false (by omega)

theorem C6_enable_by_identity_witness :
    (SetEnabledByID fourState (-1)).loggers.map (fun p => p.2.Enabled) =
      fourState.loggers.map (fun _ => false) :=
  C6_enable_by_identity.2.1 false fourState (-1) (reach_fourState false) (by decide)

/-- C7 counterexample: registering the same pre-built logger value twice (two
`AddLogger` registrations of one pointer) leaves a single registered logger
whose identity is 1, so the registered identities are not the dense sequence
0, 1, ... — no registered logger carries identity 0. -/
theorem C7_cex_duplicate_registration :
    idsOf dupState = [1] ∧
    idsOf dupState ≠ (List.range dupState.loggers.length).map Int.ofNat := by
  constructor
  · decide
  · decide

/-- C7 (amended): in every run that never registers the same logger value
twice, the registered identities are exactly 0, 1, 2, ... in registration
order — dense, unique, strictly increasing, starting at 0. -/
theorem C7_ids_dense_for_fresh_registrations :
    ∀ s : LogState, Reach true s →
      idsOf s = (List.range s.loggers.length).map Int.ofNat ∧
      s.loggers.Pairwise (fun p q => p.2.id < q.2.id) := by
  intro s hr
  have hd := (invF_of_reach hr rfl).dense
  refine ⟨hd, ?_⟩
  have h1 : (s.loggers.map (fun p => p.2.id)).Pairwise (· < ·) := by
    rw [show s.loggers.map (fun p => p.2.id) = idsOf s from rfl, hd]
    refine List.Pairwise.map _ ?_ (List.pairwise_lt_range _)
    intro a b hab
    exact Int.ofNat_lt.mpr hab
  exact List.pairwise_map.mp h1

theorem C7_ids_dense_witness : idsOf fourState = [0, 1, 2, 3] := by
  have h := (C7_ids_dense_for_fresh_registrations fourState (reach_fourState true)).1
  rw [h]
  decide

/-- C8: whenever padding is enabled in a reachable state, the stored width
dominates every registered composed-category length; enabling padding
recomputes the width as the maximum composed length over the registered
loggers (0 for the empty registry, and the maximum is attained); registering
a new logger performs the same recomputation. -/
theorem C8_max_width_invariant :
    (∀ (fresh : Bool) (s : LogState), Reach fresh s → s.categoryPadding = true →
      ∀ p ∈ s.loggers, (p.2.Category.Compose).length ≤ s.maxCategorySize) ∧
    (∀ s : LogState, (SetCategoryPadding s true).maxCategorySize = maxComposedLen s.loggers) ∧
    maxComposedLen [] = 0 ∧
    (∀ ls : List (Nat × Logger),
      (∀ p ∈ ls, (p.2.Category.Compose).length ≤ maxComposedLen ls) ∧
      (maxComposedLen ls = 0 ∨ ∃ p ∈ ls, maxComposedLen ls = (p.2.Category.Compose).length)) ∧
    (∀ (s : LogState) (tok : Nat) (handle : Option Sink) (category : String) (enabled : Bool),
      (NewLogger s tok handle category enabled).maxCategorySize =
        if s.categoryPadding then
          maxComposedLen (NewLogger s tok handle category enabled).loggers
        else 0) := by
  refine ⟨?_, fun s => rfl, rfl, ?_, fun s tok handle category enabled => rfl⟩
  · intro fresh s hr hpad p hp
    exact (inv_of_reach hr).padOK hpad p hp
  · intro ls
    exact ⟨fun p hp => le_maxComposedLen hp, maxComposedLen_attained ls⟩

theorem C8_max_width_invariant_witness :
    demoState.loggers.all
      (fun p => decide ((p.2.Category.Compose).length ≤ demoState.maxCategorySize)) = true := by
  have h := C8_max_width_invariant.1 false demoState (reach_demoState false) rfl
  rw [List.all_eq_true]
  intro p hp
  exact decide_eq_true (h p hp)

/-- C9: an accepted log call snapshots the logger's current destination (and
category) into the submitted request; swapping the destination afterwards
changes only the logger's field and leaves the queue untouched; a completed
write goes to the sink captured in the request. -/
theorem C9_sink_snapshot :
    (∀ (s : LogState) (tok : Nat) (l : Logger) (msg : String) (nl : Bool) (now : DateTime),
      lookupLogger s.loggers tok = some l → l.Enabled = true →
      (Logx s tok msg nl now).queue = s.queue ++
        [{ writer := l.Writer, category := l.Category,
           message :=
             if nl = true then
               l.Timestamp.Compose now ++ " " ++ l.Message.Compose msg ++ "\n"
             else l.Timestamp.Compose now ++ " " ++ l.Message.Compose msg }]) ∧
    (∀ (s : LogState) (tok : Nat) (w : Option Sink), (SetOutput s tok w).queue = s.queue) ∧
    (∀ (s : LogState) (tok : Nat) (w : Option Sink) (l : Logger),
      lookupLogger s.loggers tok = some l →
      lookupLogger (SetOutput s tok w).loggers tok = some { l with Writer := w }) ∧
    (∀ (s : LogState) (item : queueItem) (s2 : LogState) (w : Sink),
      item.writer = some w → performWrite s item = some s2 →
      ∃ line, s2.output = s.output ++ [(w, line)]) := by
  refine ⟨?_, fun s tok w => rfl, ?_, ?_⟩
  · intro s tok l msg nl now hl hE
    simp only [Logx, hl, performLog_enabled hE]
  · intro s tok w l hl
    exact lookup_modify_self (fun l => { l with Writer := w }) hl
  · intro s item s2 w hw h
    obtain ⟨w2, line, hw2, rfl⟩ := performWrite_some h
    rw [hw] at hw2
    obtain rfl : w2 = w := (Option.some.inj hw2).symm
    exact ⟨line, rfl⟩

theorem C9_sink_snapshot_witness :
    lookupLogger (SetOutput fourState 0 (some 9)).loggers 0 =
      some { (mkNewLogger (some 0) "A" true 0) with Writer := some 9 } :=
  C9_sink_snapshot.2.2.1 fourState 0 (some 9) (mkNewLogger (some 0) "A" true 0) rfl

end logger
